import Mathlib

/-!
# Verification of the stratagent retrieval / upsert core

Shallow embedding of `src/retrieval/retriever.py`, `src/ingestion/upsert.py`
and `src/api/worker/runner.py`.  External collaborators (the Pinecone index,
the embedding model, the text splitter, the cross-encoder reranker and the
agent crew) are modelled as oracle functions bundled in an `Env`; the
process-wide caches (`_embedding_model`, `_pinecone_index`, `_vector_store`)
become explicit state passing over `UpsertState`.  Python floats are modelled
as rationals, Python dicts as ordered association lists.
-/

/-- A metadata value: Python strings or numbers, enough for this model. -/
inductive MetaVal where
  | str (s : String)
  | num (q : ℚ)
deriving DecidableEq

/-- `langchain_core.documents.Document`: page content plus a metadata dict.
Object identity is tracked positionally where mutation matters. -/
structure Document where
  page_content : String
  metadata : List (String × MetaVal)
deriving DecidableEq

/-- Python exceptions raised by the embedded code.  `configurationError` is
the spec's name for the splitter's invalid-parameter failure. -/
inductive PyError where
  | valueError (msg : String)
  | keyError
  | configurationError
deriving DecidableEq

/-- `config/settings.py` fields used by the retrieval / upsert core. -/
structure Settings where
  embedding_model : String
  pinecone_index_name : String
  retrieval_top_k : Int
  rerank_top_k : Int
  retriever_threshold : ℚ
  reranker_threshold : ℚ
  upsert_batch_size : Nat
deriving DecidableEq

/-- The default settings values from `config/settings.py`. -/
def settings : Settings :=
  { embedding_model := "llama-text-embed-v2"
    pinecone_index_name := "stratagent"
    retrieval_top_k := 20
    rerank_top_k := 5
    retriever_threshold := 0
    reranker_threshold := 0
    upsert_batch_size := 64 }

/-- Set a key in a Python dict modelled as an ordered association list:
overwrite in place if present, else append (insertion order preserved). -/
def dictSet {α : Type} (m : List (String × α)) (k : String) (v : α) :
    List (String × α) :=
  if m.any (fun p => p.1 = k) then
    m.map (fun p => if p.1 = k then (k, v) else p)
  else
    m ++ [(k, v)]

/-- Look a key up in a Python dict modelled as an association list. -/
def dictGet? {α : Type} (m : List (String × α)) (k : String) : Option α :=
  (m.find? (fun p => p.1 = k)).map (fun p => p.2)

/-- Python's `round(x, 4)` on an exact rational: round half to even at the
fourth decimal place. -/
def round4 (x : ℚ) : ℚ :=
  let y : ℚ := x * 10000
  let f : ℤ := ⌊y⌋
  let frac : ℚ := y - f
  let n : ℤ :=
    if frac < mkRat 1 2 then f
    else if mkRat 1 2 < frac then f + 1
    else if f % 2 = 0 then f else f + 1
  mkRat n 10000

/-- Python's slice `l[:k]` for an `int` bound `k` (negative bounds count
from the end of the list). -/
def pySlice {α : Type} (l : List α) (k : Int) : List α :=
  if 0 ≤ k then l.take k.toNat
  else l.take (l.length - (-k).toNat)

/-- Tag each list element with its index, starting at `k`. -/
def withIdx {α : Type} : List α → Nat → List (Nat × α)
  | [], _ => []
  | x :: xs, k => (k, x) :: withIdx xs (k + 1)

/-- One step of stable descending insertion by key: the new element is
placed before the first element whose key is not larger.  This matches the
placement CPython's stable `sorted(..., reverse=True)` gives an element
relative to elements that came later in the input. -/
def insertDesc {α : Type} (key : α → ℚ) (x : α) : List α → List α
  | [] => [x]
  | y :: ys => if key y ≤ key x then x :: y :: ys else y :: insertDesc key x ys

/-- Stable sort, descending by `key`: the model of Python's
`sorted(l, key=..., reverse=True)` (which is a stable descending sort). -/
def stableSortDesc {α : Type} (key : α → ℚ) : List α → List α
  | [] => []
  | x :: xs => insertDesc key x (stableSortDesc key xs)

/- ### The cached objects of `src/ingestion/upsert.py` -/

/-- A constructed `PineconeEmbeddings` client; `id` is a construction tag so
distinct constructions are distinguishable. -/
structure EmbeddingModel where
  id : Nat
  model : String
deriving DecidableEq

/-- A constructed Pinecone index connection. -/
structure PineconeIndex where
  id : Nat
  name : String
deriving DecidableEq

/-- A constructed `PineconeVectorStore`: wraps the embedding model and index
and remembers the namespace it was constructed with (`none` means the
`namespace` kwarg was omitted, i.e. the index's default namespace). -/
structure VectorStore where
  id : Nat
  embedding : EmbeddingModel
  index : PineconeIndex
  «namespace» : Option String
deriving DecidableEq

/-- The module-level mutable state of `src/ingestion/upsert.py`: the three
cache globals, a fresh-id counter for constructions, and a log of writes
(namespace, chunks) performed against the index. -/
structure UpsertState where
  next_id : Nat
  embedding_model : Option EmbeddingModel
  pinecone_index : Option PineconeIndex
  vector_store : Option VectorStore
  writes : List (Option String × List Document)
deriving DecidableEq

/-- The state of a fresh process: nothing cached, nothing written. -/
def initState : UpsertState :=
  { next_id := 0, embedding_model := none, pinecone_index := none
    vector_store := none, writes := [] }

/-- External collaborators as oracles: the index's similarity search
(store namespace, query, k ↦ scored hits), the text splitter, the ids
assigned by `add_documents`, and the cross-encoder score function. -/
structure Env where
  search : Option String → String → Int → List (Document × ℚ)
  split : Int → Int → List Document → List Document
  assignIds : List Document → List String
  scoresOf : String → String → ℚ

/-- `_get_embedding_model` from `src/ingestion/upsert.py`: lazily construct
and cache the embedding client. -/
def _get_embedding_model (st : Settings) (s : UpsertState) :
    EmbeddingModel × UpsertState :=
  match s.embedding_model with
  | some m => (m, s)
  | none =>
    let m : EmbeddingModel := { id := s.next_id, model := st.embedding_model }
    (m, { s with embedding_model := some m, next_id := s.next_id + 1 })

/-- `_get_pinecone_index` from `src/ingestion/upsert.py`: lazily construct
and cache the index connection (creating the index if absent is a remote
effect folded into the oracle construction). -/
def _get_pinecone_index (st : Settings) (s : UpsertState) :
    PineconeIndex × UpsertState :=
  match s.pinecone_index with
  | some i => (i, s)
  | none =>
    let i : PineconeIndex := { id := s.next_id, name := st.pinecone_index_name }
    (i, { s with pinecone_index := some i, next_id := s.next_id + 1 })

/-- `get_vector_store` from `src/ingestion/upsert.py`: return the cached
store if present, else construct one from the (cached) embedding model and
index, passing the `namespace` kwarg only when it is not `None`. -/
def get_vector_store (st : Settings) («namespace» : Option String)
    (s : UpsertState) : VectorStore × UpsertState :=
  match s.vector_store with
  | some vs => (vs, s)
  | none =>
    let (model, s1) := _get_embedding_model st s
    let (index, s2) := _get_pinecone_index st s1
    let vs : VectorStore :=
      { id := s2.next_id, embedding := model, index := index
        «namespace» := «namespace» }
    (vs, { s2 with vector_store := some vs, next_id := s2.next_id + 1 })

/-- `reset_upsert_cache` from `src/ingestion/upsert.py`: clears
`_embedding_model` and `_pinecone_index` (and, faithfully to the source,
does not touch `_vector_store`). -/
def reset_upsert_cache (s : UpsertState) : UpsertState :=
  { s with embedding_model := none, pinecone_index := none }

/-- Modelled from the spec: the Chunker's parameter validation (spec §4.1,
"Input constraint: `chunk_overlap < chunk_size`; `chunk_size > 0`.
Violation: fails with `ConfigurationError`.").  The validating code lives in
the third-party text splitter's constructor, which is not part of `src/`;
`src/ingestion/upsert.py` only invokes it. -/
def chunkerValidate (chunk_size chunk_overlap : Int) : Except PyError Unit :=
  if chunk_size ≤ 0 then Except.error PyError.configurationError
  else if chunk_size ≤ chunk_overlap then Except.error PyError.configurationError
  else Except.ok ()

/-- `upsert_documents` from `src/ingestion/upsert.py`: reject an empty
document list, validate and run the splitter, obtain the vector store
(note: the source calls `get_vector_store()` without forwarding the
`namespace` argument), and write the chunks.  Batch sizes only shape the
remote calls and are not otherwise observable, so they are not modelled. -/
def upsert_documents (env : Env) (st : Settings) (documents : List Document)
    (chunk_size chunk_overlap : Int) («namespace» : Option String)
    (s : UpsertState) : Except PyError (List String) × UpsertState :=
  if documents.isEmpty then
    (Except.error (PyError.valueError "Documents list cannot be empty."), s)
  else
    match chunkerValidate chunk_size chunk_overlap with
    | Except.error e => (Except.error e, s)
    | Except.ok _ =>
      let chunks := env.split chunk_size chunk_overlap documents
      let (storage, s1) := get_vector_store st none s
      let ids := env.assignIds chunks
      (Except.ok ids,
        { s1 with writes := s1.writes ++ [(storage.«namespace», chunks)] })

/- ### `src/retrieval/retriever.py` -/

/-- The guard `not query or not query.strip()`: true exactly when the
query is empty or consists only of whitespace (stripping such a string
leaves the falsy empty string). -/
def isBlank (s : String) : Bool := s.data.all (fun c => c.isWhitespace)

/-- `_vector_search`: get the (possibly cached) vector store, run the
similarity search, and keep candidates whose score is at least
`settings.retriever_threshold`. -/
def _vector_search (env : Env) (st : Settings) (query : String) (k : Int)
    («namespace» : Option String) (s : UpsertState) :
    List Document × UpsertState :=
  let (store, s1) := get_vector_store st «namespace» s
  let results := env.search store.«namespace» query k
  ((results.filter (fun p => st.retriever_threshold ≤ p.2)).map (fun p => p.1), s1)

/-- `retriever`: validate the query and `k`, then vector-search.  The
`@chain` dict-unpacking adapter is an invocation-protocol artifact and is
elided; this is the unpacked core. -/
def retriever (env : Env) (st : Settings) (query : String) (k : Option Int)
    («namespace» : Option String) (s : UpsertState) :
    Except PyError (List Document) × UpsertState :=
  if isBlank query then
    (Except.error (PyError.valueError "Query cannot be empty"), s)
  else
    let k_val := k.getD st.retrieval_top_k
    if k_val < 1 ∨ 1000 < k_val then
      (Except.error (PyError.valueError "k must be between 1 and 1000"), s)
    else
      let (docs, s1) := _vector_search env st query k_val «namespace» s
      (Except.ok docs, s1)

/-- Mutation performed on a retained candidate:
`doc.metadata["rerank_score"] = round(score, 4)`. -/
def updateDoc (d : Document) (score : ℚ) : Document :=
  { d with metadata := dictSet d.metadata "rerank_score" (MetaVal.num (round4 score)) }

/-- The documents zipped with their cross-encoder scores
(`compute_score` applied to the (query, page_content) pairs; the
float-vs-list return shape of `FlagReranker` is a typing artifact and both
branches reduce to per-pair scoring). -/
def rerankScored (f : String → String → ℚ) (query : String)
    (docs : List Document) : List (Document × ℚ) :=
  docs.zip (docs.map (fun d => f query d.page_content))

/-- The candidates, index-tagged, stably sorted by score descending:
`sorted(docs_with_scores, key=lambda x: x[1], reverse=True)` (the index tag
records each candidate's position in the caller's list, standing for
Python object identity). -/
def rerankRanked (f : String → String → ℚ) (query : String)
    (docs : List Document) : List (Nat × Document × ℚ) :=
  stableSortDesc (fun p => p.2.2) (withIdx (rerankScored f query docs) 0)

/-- The selection loop of `rerank`: walk the truncated ranking and keep
(mutating) each candidate whose score is strictly above the threshold. -/
def rerankLoop (threshold : ℚ) : List (Nat × Document × ℚ) → List (Nat × Document × ℚ)
  | [] => []
  | (i, d, score) :: rest =>
    if threshold < score then (i, updateDoc d score, score) :: rerankLoop threshold rest
    else rerankLoop threshold rest

/-- The retained candidates of a `rerank` call: ranking truncated to
`reranked[:min(k, len(documents))]`, then threshold-filtered with the
score mutation applied. -/
def rerankChosen (f : String → String → ℚ) (st : Settings) (query : String)
    (docs : List Document) (k : Option Int) : List (Nat × Document × ℚ) :=
  rerankLoop st.reranker_threshold
    (pySlice (rerankRanked f query docs)
      (min (k.getD st.rerank_top_k) (docs.length : Int)))

/-- The caller's candidate list as it stands after `rerank` returns:
retained candidates were mutated in place, all others are untouched. -/
def rerankAfter (f : String → String → ℚ) (st : Settings) (query : String)
    (docs : List Document) (k : Option Int) : List Document :=
  (withIdx (rerankScored f query docs) 0).map (fun p =>
    match (rerankChosen f st query docs k).find? (fun c => c.1 = p.1) with
    | some c => c.2.1
    | none => p.2.1)

deriving instance DecidableEq for Except

/-- What a `rerank` call produces: its return value (or exception), the
caller's candidate list after the call (in-place mutation made explicit),
and whether the reranker model was invoked. -/
structure RerankResult where
  result : Except PyError (List Document)
  docsAfter : List Document
  modelInvoked : Bool
deriving DecidableEq

/-- `rerank` from `src/retrieval/retriever.py`: empty candidate list returns
immediately; then the query is validated; otherwise the candidates are
scored, stably sorted descending, truncated to `min(k, len(documents))`,
threshold-filtered, and the retained documents (mutated with their rounded
score) are returned. -/
def rerank (f : String → String → ℚ) (st : Settings) (query : String)
    (documents : List Document) (k : Option Int) : RerankResult :=
  if documents.isEmpty then
    { result := Except.ok [], docsAfter := documents, modelInvoked := false }
  else if isBlank query then
    { result := Except.error (PyError.valueError "Query cannot be empty")
      docsAfter := documents, modelInvoked := false }
  else
    { result := Except.ok ((rerankChosen f st query documents k).map (fun c => c.2.1))
      docsAfter := rerankAfter f st query documents k
      modelInvoked := true }

/-- `retrieve_with_rerank` from `src/retrieval/retriever.py`: validate the
query, vector-search with `retrieval_k` (note: no range validation), return
`[]` without touching the reranker when there are no candidates, else
rerank. -/
def retrieve_with_rerank (env : Env) (st : Settings) (query : String)
    (retrieval_k rerank_k : Option Int) («namespace» : Option String)
    (s : UpsertState) : Except PyError (List Document) × UpsertState × Bool :=
  if isBlank query then
    (Except.error (PyError.valueError "Query cannot be empty"), s, false)
  else
    let k_retrieval := retrieval_k.getD st.retrieval_top_k
    let (candidates, s1) := _vector_search env st query k_retrieval «namespace» s
    if candidates.isEmpty then
      (Except.ok [], s1, false)
    else
      let r := rerank env.scoresOf st query candidates rerank_k
      (r.result, s1, r.modelInvoked)

/-- The spec's Contract C reading (spec §4.3): call Contract A
(`retriever`) and then Contract B (`rerank`) with the same query, with the
same failure cases as the two contracts.  Stated from the spec's words for
the refinement comparison of the combined pipeline. -/
def retrieve_then_rerank_spec (env : Env) (st : Settings) (query : String)
    (retrieval_k rerank_k : Option Int) («namespace» : Option String)
    (s : UpsertState) : Except PyError (List Document) × UpsertState × Bool :=
  match retriever env st query retrieval_k «namespace» s with
  | (Except.error e, s1) => (Except.error e, s1, false)
  | (Except.ok docs, s1) =>
    let r := rerank env.scoresOf st query docs rerank_k
    (r.result, s1, r.modelInvoked)

/- ### `src/api/worker/runner.py` and `src/api/routes/analysis.py` -/

/-- One record of the in-memory `job_store`:
`{"status": ..., "result": ..., "error": ...}` (the result payload is the
serialized brief, modelled as a string). -/
structure JobRecord where
  status : String
  result : Option String
  error : Option String
deriving DecidableEq

/-- The `analyze` route handler's store effect: register the fresh job id
as pending and schedule the background run (the uuid is a parameter). -/
def analyze (job_id : String) (job_store : List (String × JobRecord)) :
    String × List (String × JobRecord) :=
  (job_id, dictSet job_store job_id
    { status := "pending", result := none, error := none })

/-- `run_analysis` from `src/api/worker/runner.py`: mark the job running,
run the crew (an oracle `company → question → Except error brief`), then
record exactly one terminal state; every exception from the pipeline is
caught and stored as `failed`.  Accessing a missing job id raises
`KeyError` (the only way the function itself can raise).  The third
component is the trace of status values written to the record. -/
def run_analysis (crewRun : String → String → Except String String)
    (job_id company question : String)
    (job_store : List (String × JobRecord)) :
    Except PyError Unit × List (String × JobRecord) × List String :=
  match dictGet? job_store job_id with
  | none => (Except.error PyError.keyError, job_store, [])
  | some rec0 =>
    let s1 := dictSet job_store job_id { rec0 with status := "running" }
    match crewRun company question with
    | Except.ok brief =>
      (Except.ok (),
        dictSet s1 job_id
          { status := "completed", result := some brief, error := rec0.error },
        ["running", "completed"])
    | Except.error e =>
      (Except.ok (),
        dictSet s1 job_id
          { status := "failed", result := rec0.result, error := some e },
        ["running", "failed"])

/- ### Concrete fixtures used by witnesses and counterexamples -/

/-- Sample candidate A (cf. the spec's stability scenario). -/
def docA : Document := { page_content := "A", metadata := [] }

/-- Sample candidate B. -/
def docB : Document := { page_content := "B", metadata := [] }

/-- Sample candidate C. -/
def docC : Document := { page_content := "C", metadata := [] }

/-- A concrete cross-encoder: scores 0.9 for content "C", 0.5 otherwise
(the spec's `[0.5, 0.5, 0.9]` scenario for candidates `[A, B, C]`). -/
def exScore : String → String → ℚ :=
  fun _ c => if c = "C" then mkRat 9 10 else mkRat 1 2

/-- A concrete environment: the index returns no hits, the splitter is the
identity, ids are constant, scoring is `exScore`. -/
def exEnv : Env :=
  { search := fun _ _ _ => []
    split := fun _ _ ds => ds
    assignIds := fun ds => ds.map (fun _ => "id-1")
    scoresOf := exScore }

/-- Candidate A after `rerank` mutates it with its rounded score. -/
def docA' : Document :=
  { page_content := "A", metadata := [("rerank_score", MetaVal.num (mkRat 1 2))] }

/-- Candidate B after mutation. -/
def docB' : Document :=
  { page_content := "B", metadata := [("rerank_score", MetaVal.num (mkRat 1 2))] }

/-- Candidate C after mutation. -/
def docC' : Document :=
  { page_content := "C", metadata := [("rerank_score", MetaVal.num (mkRat 9 10))] }

/- ### Association-list (Python dict) lemmas -/

/-- Setting a key then reading it back yields the written value. -/
theorem dictGet?_dictSet_self {α : Type} (m : List (String × α)) (k : String)
    (v : α) : dictGet? (dictSet m k v) k = some v := by
  unfold dictSet dictGet?
  by_cases h : m.any (fun p => p.1 = k)
  · simp only [h, if_true]
    induction m with
    | nil => simp at h
    | cons p ps ih =>
      by_cases hp : p.1 = k
      · simp [List.find?, hp]
      · simp only [List.any_cons, hp, decide_False, Bool.false_or] at h
        simpa [List.find?, hp] using ih h
  · simp only [h, if_false]
    have hfind : m.find? (fun p => p.1 = k) = none := by
      rw [List.find?_eq_none]
      intro p hp
      simp only [List.any_eq_true] at h
      simpa using fun hk => h ⟨p, hp, by simpa using hk⟩
    simp [List.find?_append, hfind, List.find?]

/- ### Stable descending sort: permutation, order and stability -/

/-- `insertDesc` permutes its input with the new element on top. -/
theorem insertDesc_perm {α : Type} (key : α → ℚ) (x : α) (l : List α) :
    List.Perm (insertDesc key x l) (x :: l) := by
  induction l with
  | nil => exact List.Perm.refl _
  | cons y ys ih =>
    rw [insertDesc]
    by_cases h : key y ≤ key x
    · rw [if_pos h]
    · rw [if_neg h]
      exact ((ih.cons y).trans (List.Perm.swap x y ys))

/-- `stableSortDesc` is a permutation of its input. -/
theorem stableSortDesc_perm {α : Type} (key : α → ℚ) (l : List α) :
    List.Perm (stableSortDesc key l) l := by
  induction l with
  | nil => exact List.Perm.refl _
  | cons x xs ih =>
    exact (insertDesc_perm key x (stableSortDesc key xs)).trans (ih.cons x)

/-- The strict "ranked before" relation realized by a stable descending
sort of index-tagged elements: strictly larger key, or equal key and
earlier original position. -/
def rankedBefore {α : Type} (key : α → ℚ) (idx : α → Nat) (a b : α) : Prop :=
  key b < key a ∨ (key a = key b ∧ idx a < idx b)

/-- Inserting an element whose index is below every index in a list that is
sorted for `rankedBefore` keeps the list sorted for `rankedBefore`. -/
theorem insertDesc_pairwise {α : Type} (key : α → ℚ) (idx : α → Nat) (x : α)
    {l : List α} (hl : l.Pairwise (rankedBefore key idx))
    (hx : ∀ y ∈ l, idx x < idx y) :
    (insertDesc key x l).Pairwise (rankedBefore key idx) := by
  induction l with
  | nil => simp [insertDesc, List.Pairwise]
  | cons y ys ih =>
    rw [insertDesc]
    by_cases h : key y ≤ key x
    · rw [if_pos h]
      refine List.Pairwise.cons (fun z hz => ?_) hl
      have hzy : key z ≤ key y := by
        rcases List.mem_cons.1 hz with rfl | hzys
        · exact le_refl _
        · rcases List.rel_of_pairwise_cons hl hzys with h1 | h1
          · exact le_of_lt h1
          · exact le_of_eq h1.1.symm
      have hzx : key z ≤ key x := le_trans hzy h
      rcases lt_or_eq_of_le hzx with h1 | h1
      · exact Or.inl h1
      · exact Or.inr ⟨h1.symm, hx z hz⟩
    · rw [if_neg h]
      have hys : ys.Pairwise (rankedBefore key idx) := hl.of_cons
      have hxy : ∀ z ∈ ys, idx x < idx z :=
        fun z hz => hx z (List.mem_cons_of_mem _ hz)
      refine List.Pairwise.cons (fun z hz => ?_) (ih hys hxy)
      rcases List.mem_cons.1 ((insertDesc_perm key x ys).mem_iff.1 hz) with rfl | hzys
      · exact Or.inl (lt_of_not_le h)
      · exact List.rel_of_pairwise_cons hl hzys

/-- A stable descending sort of a list with strictly increasing indices is
sorted for `rankedBefore`: keys descend, and ties keep original order. -/
theorem stableSortDesc_pairwise {α : Type} (key : α → ℚ) (idx : α → Nat)
    {l : List α} (h : l.Pairwise (fun a b => idx a < idx b)) :
    (stableSortDesc key l).Pairwise (rankedBefore key idx) := by
  induction l with
  | nil => simp [stableSortDesc, List.Pairwise]
  | cons x xs ih =>
    rw [stableSortDesc]
    refine insertDesc_pairwise key idx x (ih h.of_cons) (fun y hy => ?_)
    exact List.rel_of_pairwise_cons h ((stableSortDesc_perm key xs).mem_iff.1 hy)

/- ### `withIdx` lemmas -/

/-- Every index produced by `withIdx l k` is at least `k`. -/
theorem withIdx_fst_ge {α : Type} :
    ∀ (l : List α) (k : Nat), ∀ p ∈ withIdx l k, k ≤ p.1 := by
  intro l
  induction l with
  | nil => intro k p hp; simp [withIdx] at hp
  | cons x xs ih =>
    intro k p hp
    rcases List.mem_cons.1 hp with rfl | hp
    · exact le_refl _
    · exact le_trans (Nat.le_succ k) (ih (k + 1) p hp)

/-- The indices produced by `withIdx` are strictly increasing. -/
theorem withIdx_pairwise {α : Type} :
    ∀ (l : List α) (k : Nat), (withIdx l k).Pairwise (fun a b => a.1 < b.1) := by
  intro l
  induction l with
  | nil => intro k; simp [withIdx]
  | cons x xs ih =>
    intro k
    refine List.Pairwise.cons (fun p hp => ?_) (ih (k + 1))
    exact lt_of_lt_of_le (Nat.lt_succ_self k) (withIdx_fst_ge xs (k + 1) p hp)

/-- Positional lookup in `withIdx`. -/
theorem withIdx_get? {α : Type} :
    ∀ (l : List α) (k i : Nat),
      (withIdx l k).get? i = (l.get? i).map (fun x => (k + i, x)) := by
  intro l
  induction l with
  | nil => intro k i; simp [withIdx]
  | cons x xs ih =>
    intro k i
    cases i with
    | zero => simp [withIdx]
    | succ j =>
      rw [withIdx]
      simp only [List.get?_cons_succ]
      rw [ih (k + 1) j, show k + 1 + j = k + (j + 1) from by omega]

/-- Membership in `withIdx l 0` characterizes positional lookup. -/
theorem mem_withIdx {α : Type} {l : List α} {p : Nat × α}
    (hp : p ∈ withIdx l 0) : l.get? p.1 = some p.2 := by
  have aux : ∀ (l : List α) (k : Nat) (p : Nat × α), p ∈ withIdx l k →
      k ≤ p.1 ∧ l.get? (p.1 - k) = some p.2 := by
    intro l
    induction l with
    | nil => intro k p hp; simp [withIdx] at hp
    | cons x xs ih =>
      intro k p hp
      rcases List.mem_cons.1 hp with rfl | hp
      · simp
      · have h1 := withIdx_fst_ge xs (k + 1) p hp
        have h2 := ih (k + 1) p hp
        refine ⟨le_trans (Nat.le_succ k) h1, ?_⟩
        have : p.1 - k = (p.1 - (k + 1)) + 1 := by omega
        simpa [this] using h2.2
  simpa using (aux l 0 p hp).2

/-- `withIdx` preserves length. -/
theorem withIdx_length {α : Type} :
    ∀ (l : List α) (k : Nat), (withIdx l k).length = l.length := by
  intro l
  induction l with
  | nil => intro k; rfl
  | cons x xs ih => intro k; simp [withIdx, ih (k + 1)]

/- ### Rerank pipeline lemmas -/

/-- The selection loop is the threshold filter followed by the in-place
score mutation. -/
theorem rerankLoop_eq_filter_map (threshold : ℚ) (l : List (Nat × Document × ℚ)) :
    rerankLoop threshold l =
      (l.filter (fun p => threshold < p.2.2)).map
        (fun p => (p.1, updateDoc p.2.1 p.2.2, p.2.2)) := by
  induction l with
  | nil => rfl
  | cons p ps ih =>
    obtain ⟨i, d, score⟩ := p
    rw [rerankLoop]
    by_cases h : threshold < score
    · simp [h, List.filter_cons, ih]
    · simp [h, List.filter_cons, ih]

/-- Zipping the candidates with their pointwise scores pairs each document
with its own score. -/
theorem rerankScored_eq (f : String → String → ℚ) (query : String)
    (docs : List Document) :
    rerankScored f query docs =
      docs.map (fun d => (d, f query d.page_content)) := by
  unfold rerankScored
  induction docs with
  | nil => rfl
  | cons d ds ih => simp [List.zip_cons_cons, ih]

/-- The ranking stage preserves the number of candidates. -/
theorem rerankRanked_length (f : String → String → ℚ) (query : String)
    (docs : List Document) :
    (rerankRanked f query docs).length = docs.length := by
  unfold rerankRanked
  rw [(stableSortDesc_perm _ _).length_eq, withIdx_length, rerankScored_eq]
  simp

/-- The ranking stage is sorted: scores descend, and candidates with equal
scores keep their original relative order. -/
theorem rerankRanked_pairwise (f : String → String → ℚ) (query : String)
    (docs : List Document) :
    (rerankRanked f query docs).Pairwise
      (rankedBefore (fun p => p.2.2) (fun p => p.1)) := by
  unfold rerankRanked
  exact stableSortDesc_pairwise _ _ (withIdx_pairwise _ 0)

/-- Every ranked entry records a candidate at its original position,
scored by the cross-encoder on that candidate's content. -/
theorem rerankRanked_mem (f : String → String → ℚ) (query : String)
    (docs : List Document) {p : Nat × Document × ℚ}
    (hp : p ∈ rerankRanked f query docs) :
    docs.get? p.1 = some p.2.1 ∧ p.2.2 = f query p.2.1.page_content := by
  unfold rerankRanked at hp
  have hp' := (stableSortDesc_perm _ _).mem_iff.1 hp
  have hget := mem_withIdx hp'
  rw [rerankScored_eq] at hget
  rw [List.get?_map] at hget
  cases hd : docs.get? p.1 with
  | none => rw [hd] at hget; simp at hget
  | some d =>
    rw [hd] at hget
    simp only [Option.map_some'] at hget
    have hpd : p.2 = (d, f query d.page_content) := by
      exact (Option.some_injective _ hget).symm
    have h1 : p.2.1 = d := by rw [hpd]
    have h2 : p.2.2 = f query d.page_content := by rw [hpd]
    refine ⟨?_, ?_⟩
    · rw [h1]
    · rw [h2, h1]

/-- The original positions recorded by the ranking stage are distinct. -/
theorem rerankRanked_nodup (f : String → String → ℚ) (query : String)
    (docs : List Document) :
    ((rerankRanked f query docs).map (fun p => p.1)).Nodup := by
  unfold rerankRanked
  have hperm := (stableSortDesc_perm (fun p : Nat × Document × ℚ => p.2.2)
    (withIdx (rerankScored f query docs) 0)).map (fun p => p.1)
  refine hperm.nodup_iff.2 ?_
  have h2 : ((withIdx (rerankScored f query docs) 0).map
      (fun p => p.1)).Pairwise (fun a b => a < b) :=
    List.pairwise_map.2 (withIdx_pairwise _ 0)
  exact h2.imp (fun h => Nat.ne_of_lt h)

/-- A Python slice is a sublist of the sliced list. -/
theorem pySlice_sublist {α : Type} (l : List α) (k : Int) :
    (pySlice l k).Sublist l := by
  unfold pySlice
  split
  · exact List.take_sublist _ _
  · exact List.take_sublist _ _

/-- Length of a slice with a non-negative bound. -/
theorem pySlice_length {α : Type} (l : List α) (k : Int) (h : 0 ≤ k) :
    (pySlice l k).length = min k.toNat l.length := by
  unfold pySlice
  rw [if_pos h, List.length_take]

/-- The retained candidates are the threshold filter of the truncated
ranking, with the score mutation applied. -/
theorem rerankChosen_eq (f : String → String → ℚ) (st : Settings)
    (query : String) (docs : List Document) (k : Option Int) :
    rerankChosen f st query docs k =
      ((pySlice (rerankRanked f query docs)
          (min (k.getD st.rerank_top_k) (docs.length : Int))).filter
        (fun p => st.reranker_threshold < p.2.2)).map
        (fun p => (p.1, updateDoc p.2.1 p.2.2, p.2.2)) := by
  unfold rerankChosen
  exact rerankLoop_eq_filter_map _ _

/-- Every retained candidate arises from a ranked entry whose score beats
the threshold, mutated with that score. -/
theorem rerankChosen_mem (f : String → String → ℚ) (st : Settings)
    (query : String) (docs : List Document) (k : Option Int)
    {c : Nat × Document × ℚ} (hc : c ∈ rerankChosen f st query docs k) :
    ∃ p ∈ rerankRanked f query docs,
      st.reranker_threshold < p.2.2 ∧ c = (p.1, updateDoc p.2.1 p.2.2, p.2.2) := by
  rw [rerankChosen_eq] at hc
  obtain ⟨p, hp, rfl⟩ := List.mem_map.1 hc
  have hp' := List.mem_filter.1 hp
  refine ⟨p, (pySlice_sublist _ _).mem hp'.1, by simpa using hp'.2, rfl⟩

/-- The retained candidates inherit the ranking's order: scores descend,
ties keep the original relative order. -/
theorem rerankChosen_pairwise (f : String → String → ℚ) (st : Settings)
    (query : String) (docs : List Document) (k : Option Int) :
    (rerankChosen f st query docs k).Pairwise
      (rankedBefore (fun p => p.2.2) (fun p => p.1)) := by
  rw [rerankChosen_eq]
  refine List.pairwise_map.2 ?_
  have h0 : ((pySlice (rerankRanked f query docs)
        (min (k.getD st.rerank_top_k) (docs.length : Int))).filter
      (fun p => st.reranker_threshold < p.2.2)).Pairwise
      (rankedBefore (fun p => p.2.2) (fun p => p.1)) :=
    List.Pairwise.sublist ((List.filter_sublist _).trans (pySlice_sublist _ _))
      (rerankRanked_pairwise f query docs)
  exact h0.imp (fun h => h)

/-- The retained candidates keep distinct original positions. -/
theorem rerankChosen_nodup (f : String → String → ℚ) (st : Settings)
    (query : String) (docs : List Document) (k : Option Int) :
    ((rerankChosen f st query docs k).map (fun p => p.1)).Nodup := by
  rw [rerankChosen_eq, List.map_map]
  have hsub : ((pySlice (rerankRanked f query docs)
        (min (k.getD st.rerank_top_k) (docs.length : Int))).filter
      (fun p => st.reranker_threshold < p.2.2)).Sublist
      (rerankRanked f query docs) :=
    (List.filter_sublist _).trans (pySlice_sublist _ _)
  have : (((pySlice (rerankRanked f query docs)
        (min (k.getD st.rerank_top_k) (docs.length : Int))).filter
      (fun p => st.reranker_threshold < p.2.2)).map (fun p => p.1)).Sublist
      ((rerankRanked f query docs).map (fun p => p.1)) := hsub.map _
  exact (rerankRanked_nodup f query docs).sublist this

/-- Looking up a retained candidate's original position in the retained
list finds exactly that candidate (positions are distinct). -/
theorem find?_fst_self {β : Type} {l : List (Nat × β)}
    (hnd : (l.map (fun p => p.1)).Nodup) {c : Nat × β} (hc : c ∈ l) :
    l.find? (fun x => x.1 = c.1) = some c := by
  induction l with
  | nil => cases hc
  | cons h t ih =>
    rw [List.map_cons] at hnd
    rcases List.mem_cons.1 hc with rfl | hct
    · simp [List.find?]
    · by_cases he : h.1 = c.1
      · exfalso
        have h1 : c.1 ∈ t.map (fun p => p.1) := List.mem_map_of_mem _ hct
        have h2 := (List.nodup_cons.1 hnd).1
        exact h2 (he ▸ h1)
      · have ht : (t.map (fun p => p.1)).Nodup := (List.nodup_cons.1 hnd).2
        simpa [List.find?, he] using ih ht hct

/-- On a non-empty candidate list and a non-blank query, `rerank` returns
the retained candidates' documents, reports the mutated caller list, and
invokes the model. -/
theorem rerank_eq_of_valid (f : String → String → ℚ) (st : Settings)
    (query : String) (documents : List Document) (k : Option Int)
    (hne : documents ≠ []) (hq : isBlank query = false) :
    rerank f st query documents k =
      { result := Except.ok ((rerankChosen f st query documents k).map
          (fun c => c.2.1))
        docsAfter := rerankAfter f st query documents k
        modelInvoked := true } := by
  obtain ⟨d, ds, rfl⟩ := List.exists_cons_of_ne_nil hne
  simp [rerank, hq]

/-- The caller's list after `rerank` has the same length as before. -/
theorem rerankAfter_length (f : String → String → ℚ) (st : Settings)
    (query : String) (docs : List Document) (k : Option Int) :
    (rerankAfter f st query docs k).length = docs.length := by
  unfold rerankAfter
  rw [List.length_map, withIdx_length, rerankScored_eq, List.length_map]

/-- After `rerank`, the caller's list holds each retained candidate's
mutated document at that candidate's original position. -/
theorem rerankAfter_get?_chosen (f : String → String → ℚ) (st : Settings)
    (query : String) (docs : List Document) (k : Option Int)
    {c : Nat × Document × ℚ} (hc : c ∈ rerankChosen f st query docs k) :
    (rerankAfter f st query docs k).get? c.1 = some c.2.1 := by
  obtain ⟨p, hp, _hth, rfl⟩ := rerankChosen_mem f st query docs k hc
  have hget := (rerankRanked_mem f query docs hp).1
  unfold rerankAfter
  rw [List.get?_map, withIdx_get?, rerankScored_eq, List.get?_map, hget]
  simp only [Option.map_some', Nat.zero_add]
  rw [find?_fst_self (rerankChosen_nodup f st query docs k) hc]

/-- After `rerank`, positions not retained are untouched. -/
theorem rerankAfter_get?_unchosen (f : String → String → ℚ) (st : Settings)
    (query : String) (docs : List Document) (k : Option Int) (i : Nat)
    (h : ∀ c ∈ rerankChosen f st query docs k, c.1 ≠ i) :
    (rerankAfter f st query docs k).get? i = docs.get? i := by
  have hfind : (rerankChosen f st query docs k).find? (fun x => x.1 = i) = none := by
    rw [List.find?_eq_none]
    intro c hc
    simpa using h c hc
  unfold rerankAfter
  rw [List.get?_map, withIdx_get?, rerankScored_eq, List.get?_map]
  cases hd : docs.get? i with
  | none => simp
  | some d =>
    simp only [Option.map_some', Nat.zero_add]
    rw [hfind]

/- ### Claim theorems -/

/-- C1: `upsert_documents` does NOT write within the given namespace: the
source calls `get_vector_store()` without forwarding its `namespace`
argument, so the chunks of an upsert requested for namespace "test-ns" are
written under the index's default namespace (`none`) — a retrieval
restricted to "test-ns" does not target the namespace that received them.
This contradicts the claim (and the module's own docstring and
`test_upsert_with_namespace`). -/
theorem upsert_documents_ignores_namespace :
    (upsert_documents exEnv settings [docA] 512 50 (some "test-ns")
        initState).1 = Except.ok ["id-1"] ∧
    (upsert_documents exEnv settings [docA] 512 50 (some "test-ns")
        initState).2.writes = [(none, [docA])] ∧
    (some "test-ns" : Option String) ≠ none := by
  refine ⟨?_, ?_, ?_⟩ <;> decide

/-- C3: `reset_upsert_cache` does NOT force recreation: it clears only the
embedding-model and index caches, leaving `_vector_store` cached, so the
next `get_vector_store` returns the previously constructed store (with the
old embedding model and index inside) and constructs nothing new (the
state, including the fresh-id counter, is unchanged).  The
safe-when-nothing-cached part of the claim does hold
(`reset_upsert_cache initState = initState`). -/
theorem reset_upsert_cache_leaves_vector_store_cached :
    (get_vector_store settings none
        (reset_upsert_cache (get_vector_store settings none initState).2)).1 =
      (get_vector_store settings none initState).1 ∧
    (get_vector_store settings none
        (reset_upsert_cache (get_vector_store settings none initState).2)).2 =
      reset_upsert_cache (get_vector_store settings none initState).2 ∧
    (reset_upsert_cache (get_vector_store settings none initState).2).embedding_model
      = none ∧
    (reset_upsert_cache (get_vector_store settings none initState).2).pinecone_index
      = none ∧
    (reset_upsert_cache (get_vector_store settings none initState).2).vector_store
      = some (get_vector_store settings none initState).1 ∧
    reset_upsert_cache initState = initState := by
  refine ⟨?_, ?_, ?_, ?_, ?_, ?_⟩ <;> decide

/-- C4 counterexample: with an empty candidate list and an empty (invalid)
query, `rerank` returns `Except.ok []` instead of failing with the
invalid-query error — the emptiness check precedes query validation, so
the claim "rerank fails with InvalidQueryError when the query is
empty ... for every candidates list, including the empty list" is false. -/
theorem rerank_blank_query_empty_candidates_no_error :
    (rerank exScore settings "" [] none).result = Except.ok [] ∧
    isBlank "" = true := by
  exact ⟨by decide, by decide⟩

/-- C4 amended: `rerank` returns `[]` for an empty candidates list for
EVERY query, valid or not (the emptiness check runs first); it fails with
the invalid-query `ValueError` on an empty/whitespace query exactly when
the candidates list is non-empty. -/
theorem rerank_empty_check_precedes_query_validation
    (f : String → String → ℚ) (st : Settings) (query : String)
    (documents : List Document) (k : Option Int) :
    (rerank f st query [] k).result = Except.ok [] ∧
    (documents ≠ [] → isBlank query = true →
      rerank f st query documents k =
        { result := Except.error (PyError.valueError "Query cannot be empty")
          docsAfter := documents, modelInvoked := false }) := by
  refine ⟨by simp [rerank], ?_⟩
  intro hne hq
  obtain ⟨d, ds, rfl⟩ := List.exists_cons_of_ne_nil hne
  simp [rerank, hq]

/-- C4 amended, witness: instantiated at an empty query with `[]` and with
`[docA]`. -/
theorem rerank_empty_check_precedes_query_validation_witness :
    (rerank exScore settings "" [] none).result = Except.ok [] ∧
    rerank exScore settings "" [docA] none =
      { result := Except.error (PyError.valueError "Query cannot be empty")
        docsAfter := [docA], modelInvoked := false } := by
  have h := rerank_empty_check_precedes_query_validation exScore settings ""
    [docA] none
  exact ⟨h.1, h.2 (by decide) (by decide)⟩

/-- C7: invalid chunking parameters (`chunk_size ≤ 0` or
`chunk_overlap ≥ chunk_size`) make `upsert_documents` fail with
`ConfigurationError` before producing chunks or writing anything: the
returned state is exactly the input state.  (The validation itself is
modelled from the spec, see `chunkerValidate`.) -/
theorem upsert_invalid_chunk_params_fail_fast (env : Env) (st : Settings)
    (documents : List Document) (chunk_size chunk_overlap : Int)
    («namespace» : Option String) (s : UpsertState)
    (hne : documents ≠ [])
    (hbad : chunk_size ≤ 0 ∨ chunk_size ≤ chunk_overlap) :
    upsert_documents env st documents chunk_size chunk_overlap «namespace» s =
      (Except.error PyError.configurationError, s) := by
  obtain ⟨d, ds, rfl⟩ := List.exists_cons_of_ne_nil hne
  unfold upsert_documents chunkerValidate
  rcases hbad with h | h
  · simp [h]
  · by_cases h0 : chunk_size ≤ 0
    · simp [h0]
    · simp [h0, h]

/-- C7 witness: `chunk_size = 10, chunk_overlap = 10` (overlap equal to
size) is rejected with no state change. -/
theorem upsert_invalid_chunk_params_fail_fast_witness :
    ([docA] : List Document) ≠ [] ∧
    ((10 : Int) ≤ 0 ∨ (10 : Int) ≤ 10) ∧
    upsert_documents exEnv settings [docA] 10 10 none initState =
      (Except.error PyError.configurationError, initState) := by
  refine ⟨by decide, Or.inr (by decide), ?_⟩
  exact upsert_invalid_chunk_params_fail_fast exEnv settings [docA] 10 10 none
    initState (by decide) (Or.inr (by decide))

/-- C2 counterexample: `retrieve_with_rerank` performs no range validation
on `retrieval_k`.  At `retrieval_k = 0` the composition
`retriever` + `rerank` fails with the invalid-range `ValueError` while
`retrieve_with_rerank` succeeds with `[]`, so the two are not equivalent
for every `retrieval_k` as the claim states. -/
theorem retrieve_with_rerank_skips_range_validation :
    retrieve_with_rerank exEnv settings "q" (some 0) none none initState ≠
      retrieve_then_rerank_spec exEnv settings "q" (some 0) none none
        initState ∧
    (retrieve_with_rerank exEnv settings "q" (some 0) none none
        initState).1 = Except.ok [] ∧
    (retrieve_then_rerank_spec exEnv settings "q" (some 0) none none
        initState).1 =
      Except.error (PyError.valueError "k must be between 1 and 1000") := by
  refine ⟨?_, ?_, ?_⟩ <;> decide

/-- C2 amended: whenever the effective `retrieval_k` (given value or
default) lies in `[1, 1000]`, `retrieve_with_rerank` is fully equivalent —
same results, same errors, same cache-state effects, same
reranker-model-invocation behaviour — to running `retriever` and then
`rerank` with the same query; and when the vector search returns no
candidates it short-circuits to `[]` without invoking the reranker model.
Outside `[1, 1000]` the equivalence fails because `retrieve_with_rerank`
skips the range check (see the counterexample). -/
theorem retrieve_with_rerank_equiv_in_range (env : Env) (st : Settings)
    (query : String) (retrieval_k rerank_k : Option Int)
    («namespace» : Option String) (s : UpsertState)
    (h1 : 1 ≤ retrieval_k.getD st.retrieval_top_k)
    (h2 : retrieval_k.getD st.retrieval_top_k ≤ 1000) :
    retrieve_with_rerank env st query retrieval_k rerank_k «namespace» s =
      retrieve_then_rerank_spec env st query retrieval_k rerank_k
        «namespace» s ∧
    (isBlank query = false →
      (_vector_search env st query (retrieval_k.getD st.retrieval_top_k)
          «namespace» s).1 = [] →
      retrieve_with_rerank env st query retrieval_k rerank_k «namespace» s =
        (Except.ok [],
          (_vector_search env st query (retrieval_k.getD st.retrieval_top_k)
            «namespace» s).2, false)) := by
  constructor
  · unfold retrieve_with_rerank retrieve_then_rerank_spec retriever
    by_cases hq : isBlank query
    · simp [hq]
    · have hk : ¬(retrieval_k.getD st.retrieval_top_k < 1 ∨
          1000 < retrieval_k.getD st.retrieval_top_k) := by omega
      simp only [hq, Bool.false_eq_true, if_false, hk]
      cases hvs : _vector_search env st query
          (retrieval_k.getD st.retrieval_top_k) «namespace» s with
      | mk candidates s1 =>
        by_cases hc : candidates.isEmpty
        · have hcnil : candidates = [] := by
            cases candidates with
            | nil => rfl
            | cons a l => simp [List.isEmpty] at hc
          subst hcnil
          simp [rerank]
        · simp [hc]
  · intro hq hcand
    unfold retrieve_with_rerank
    cases hvs : _vector_search env st query
        (retrieval_k.getD st.retrieval_top_k) «namespace» s with
    | mk candidates s1 =>
      rw [hvs] at hcand
      simp only at hcand
      subst hcand
      simp [hq, hvs]

/-- C2 amended, witness: at `retrieval_k = 1` (in range) the combined
pipeline and the composition agree on a concrete environment. -/
theorem retrieve_with_rerank_equiv_in_range_witness :
    (1 ≤ (some (1 : Int)).getD settings.retrieval_top_k) ∧
    ((some (1 : Int)).getD settings.retrieval_top_k ≤ 1000) ∧
    retrieve_with_rerank exEnv settings "q" (some 1) none none initState =
      retrieve_then_rerank_spec exEnv settings "q" (some 1) none none
        initState := by
  refine ⟨by decide, by decide, ?_⟩
  exact (retrieve_with_rerank_equiv_in_range exEnv settings "q" (some 1) none
    none initState (by decide) (by decide)).1

/-- C5: on a non-empty candidate list, a valid query and a positive
effective `k`, `rerank` first selects the top `min(k, len(candidates))`
entries of the descending ranking and only then drops the ones whose score
is at or below `reranker_threshold`, so the returned count can fall short
of `k`; each retained result's metadata gains the rerank score rounded to
4 decimal places. -/
theorem rerank_threshold_after_truncation (f : String → String → ℚ)
    (st : Settings) (query : String) (documents : List Document)
    (k : Option Int) (hne : documents ≠ []) (hq : isBlank query = false)
    (hk : 1 ≤ k.getD st.rerank_top_k) :
    (pySlice (rerankRanked f query documents)
        (min (k.getD st.rerank_top_k) (documents.length : Int))).length =
      (min (k.getD st.rerank_top_k) (documents.length : Int)).toNat ∧
    (rerank f st query documents k).result =
      Except.ok (((pySlice (rerankRanked f query documents)
          (min (k.getD st.rerank_top_k) (documents.length : Int))).filter
        (fun p => st.reranker_threshold < p.2.2)).map
        (fun p => updateDoc p.2.1 p.2.2)) ∧
    (((pySlice (rerankRanked f query documents)
        (min (k.getD st.rerank_top_k) (documents.length : Int))).filter
      (fun p => st.reranker_threshold < p.2.2)).map
      (fun p => updateDoc p.2.1 p.2.2)).length ≤
      (min (k.getD st.rerank_top_k) (documents.length : Int)).toNat ∧
    ∀ p ∈ pySlice (rerankRanked f query documents)
        (min (k.getD st.rerank_top_k) (documents.length : Int)),
      st.reranker_threshold < p.2.2 →
      dictGet? (updateDoc p.2.1 p.2.2).metadata "rerank_score" =
        some (MetaVal.num (round4 p.2.2)) := by
  have hlen : 1 ≤ documents.length := List.length_pos.2 hne
  have hkk1 : (1 : Int) ≤ min (k.getD st.rerank_top_k) (documents.length : Int) :=
    le_min hk (by exact_mod_cast hlen)
  have hkk0 : (0 : Int) ≤ min (k.getD st.rerank_top_k) (documents.length : Int) :=
    le_trans (by norm_num) hkk1
  have hsel : (pySlice (rerankRanked f query documents)
      (min (k.getD st.rerank_top_k) (documents.length : Int))).length =
      (min (k.getD st.rerank_top_k) (documents.length : Int)).toNat := by
    rw [pySlice_length _ _ hkk0, rerankRanked_length]
    have hle : (min (k.getD st.rerank_top_k) (documents.length : Int)).toNat ≤
        documents.length := by
      have := min_le_right (k.getD st.rerank_top_k) (documents.length : Int)
      omega
    exact Nat.min_eq_left hle
  refine ⟨hsel, ?_, ?_, ?_⟩
  · rw [rerank_eq_of_valid f st query documents k hne hq]
    rw [rerankChosen_eq, List.map_map]
    rfl
  · calc (((pySlice (rerankRanked f query documents)
          (min (k.getD st.rerank_top_k) (documents.length : Int))).filter
        (fun p => st.reranker_threshold < p.2.2)).map
        (fun p => updateDoc p.2.1 p.2.2)).length
        = ((pySlice (rerankRanked f query documents)
            (min (k.getD st.rerank_top_k) (documents.length : Int))).filter
          (fun p => st.reranker_threshold < p.2.2)).length := List.length_map _ _
      _ ≤ (pySlice (rerankRanked f query documents)
            (min (k.getD st.rerank_top_k) (documents.length : Int))).length :=
          List.length_filter_le _ _
      _ = (min (k.getD st.rerank_top_k) (documents.length : Int)).toNat := hsel
  · intro p _hp _hth
    exact dictGet?_dictSet_self _ _ _

/-- C5 witness: the `[0.5, 0.5, 0.9]` scenario at the default `k`. -/
theorem rerank_threshold_after_truncation_witness :
    ([docA, docB, docC] : List Document) ≠ [] ∧
    isBlank "q" = false ∧
    (1 : Int) ≤ (none : Option Int).getD settings.rerank_top_k ∧
    (rerank exScore settings "q" [docA, docB, docC] none).result =
      Except.ok (((pySlice (rerankRanked exScore "q" [docA, docB, docC])
          (min ((none : Option Int).getD settings.rerank_top_k)
            (([docA, docB, docC] : List Document).length : Int))).filter
        (fun p => settings.reranker_threshold < p.2.2)).map
        (fun p => updateDoc p.2.1 p.2.2)) := by
  refine ⟨by decide, by decide, by decide, ?_⟩
  exact (rerank_threshold_after_truncation exScore settings "q"
    [docA, docB, docC] none (by decide) (by decide) (by decide)).2.1

unseal Rat.mul Rat.sub in
/-- C6: on a non-empty candidate list, a valid query and a positive
effective `k`, the output of `rerank` (the retained candidates) is ordered
by rerank score descending with ties broken by the original relative order
of the candidates, and is truncated to at most `min(k, len(candidates))`
results; in particular with scores `[0.5, 0.5, 0.9]` for candidates
`[A, B, C]` the result is `[C, A, B]`, and with 3 candidates and `k = 10`
at most 3 results come back, without padding or error. -/
theorem rerank_stable_sort_truncation (f : String → String → ℚ)
    (st : Settings) (query : String) (documents : List Document)
    (k : Option Int) (hne : documents ≠ []) (hq : isBlank query = false)
    (hk : 1 ≤ k.getD st.rerank_top_k) :
    (rerank f st query documents k).result =
      Except.ok ((rerankChosen f st query documents k).map (fun c => c.2.1)) ∧
    (rerankChosen f st query documents k).Pairwise
      (fun a b => b.2.2 < a.2.2 ∨ (a.2.2 = b.2.2 ∧ a.1 < b.1)) ∧
    (rerankChosen f st query documents k).length ≤
      (min (k.getD st.rerank_top_k) (documents.length : Int)).toNat ∧
    (rerank exScore settings "q" [docA, docB, docC] none).result =
      Except.ok [docC', docA', docB'] ∧
    (rerank exScore settings "q" [docA, docB, docC] (some 10)).result =
      Except.ok [docC', docA', docB'] := by
  have hlen : 1 ≤ documents.length := List.length_pos.2 hne
  have hkk0 : (0 : Int) ≤ min (k.getD st.rerank_top_k) (documents.length : Int) :=
    le_min (by omega) (by exact_mod_cast Nat.zero_le _)
  refine ⟨?_, ?_, ?_, ?_, ?_⟩
  · rw [rerank_eq_of_valid f st query documents k hne hq]
  · exact (rerankChosen_pairwise f st query documents k).imp (fun h => h)
  · rw [rerankChosen_eq]
    calc (((pySlice (rerankRanked f query documents)
          (min (k.getD st.rerank_top_k) (documents.length : Int))).filter
        (fun p => st.reranker_threshold < p.2.2)).map
        (fun p => (p.1, updateDoc p.2.1 p.2.2, p.2.2))).length
        ≤ (pySlice (rerankRanked f query documents)
            (min (k.getD st.rerank_top_k) (documents.length : Int))).length := by
          rw [List.length_map]
          exact List.length_filter_le _ _
      _ ≤ (min (k.getD st.rerank_top_k) (documents.length : Int)).toNat := by
          rw [pySlice_length _ _ hkk0]
          exact Nat.min_le_left _ _
  · decide
  · decide

/-- C6 witness: the hypotheses hold for the spec's `[A, B, C]` scenario at
the default `k`, and the retained candidates are sorted with ties broken
by original position. -/
theorem rerank_stable_sort_truncation_witness :
    ([docA, docB, docC] : List Document) ≠ [] ∧
    isBlank "q" = false ∧
    (1 : Int) ≤ (none : Option Int).getD settings.rerank_top_k ∧
    (rerankChosen exScore settings "q" [docA, docB, docC] none).Pairwise
      (fun a b => b.2.2 < a.2.2 ∨ (a.2.2 = b.2.2 ∧ a.1 < b.1)) := by
  exact ⟨by decide, by decide, by decide,
    (rerank_stable_sort_truncation exScore settings "q" [docA, docB, docC]
      none (by decide) (by decide) (by decide)).2.1⟩

/-- C8: for a job stored as `pending` by submission (`analyze`),
`run_analysis` raises nothing to its scheduler (it returns normally for
every outcome of the crew run), writes `running` and then exactly one
terminal status — `completed` with the result populated, or `failed` with
the stringified error populated — and the status-write trace is exactly
`[running, terminal]`: a terminal record is never moved back to `pending`
or `running`. -/
theorem run_analysis_state_machine
    (crewRun : String → String → Except String String)
    (job_id company question : String)
    (store0 : List (String × JobRecord)) :
    dictGet? (analyze job_id store0).2 job_id =
      some { status := "pending", result := none, error := none } ∧
    (run_analysis crewRun job_id company question (analyze job_id store0).2).1 =
      Except.ok () ∧
    ((∃ b, crewRun company question = Except.ok b ∧
        (run_analysis crewRun job_id company question
          (analyze job_id store0).2).2.2 = ["running", "completed"] ∧
        dictGet? (run_analysis crewRun job_id company question
            (analyze job_id store0).2).2.1 job_id =
          some { status := "completed", result := some b, error := none }) ∨
     (∃ e, crewRun company question = Except.error e ∧
        (run_analysis crewRun job_id company question
          (analyze job_id store0).2).2.2 = ["running", "failed"] ∧
        dictGet? (run_analysis crewRun job_id company question
            (analyze job_id store0).2).2.1 job_id =
          some { status := "failed", result := none, error := some e })) ∧
    ∀ t ∈ (run_analysis crewRun job_id company question
        (analyze job_id store0).2).2.2, t ≠ "pending" := by
  have hget : dictGet? (analyze job_id store0).2 job_id =
      some { status := "pending", result := none, error := none } :=
    dictGet?_dictSet_self store0 job_id _
  refine ⟨hget, ?_, ?_, ?_⟩
  · unfold run_analysis
    rw [hget]
    cases crewRun company question <;> rfl
  · unfold run_analysis
    rw [hget]
    cases hcrew : crewRun company question with
    | ok b =>
      exact Or.inl ⟨b, rfl, rfl, dictGet?_dictSet_self _ _ _⟩
    | error e =>
      exact Or.inr ⟨e, rfl, rfl, dictGet?_dictSet_self _ _ _⟩
  · unfold run_analysis
    rw [hget]
    cases crewRun company question with
    | ok b =>
      intro t ht
      have ht2 : t ∈ ["running", "completed"] := ht
      rcases List.mem_cons.1 ht2 with rfl | ht3
      · decide
      · rcases List.mem_cons.1 ht3 with rfl | ht4
        · decide
        · cases ht4
    | error e =>
      intro t ht
      have ht2 : t ∈ ["running", "failed"] := ht
      rcases List.mem_cons.1 ht2 with rfl | ht3
      · decide
      · rcases List.mem_cons.1 ht3 with rfl | ht4
        · decide
        · cases ht4

/-- C9: once `get_vector_store` has constructed and cached a store, every
later call returns that same store whatever namespace it asks for: the
first call's namespace is baked into the cached store, and a subsequent
vector search requesting a different namespace actually runs against the
first call's namespace. -/
theorem get_vector_store_first_namespace_wins (env : Env) (st : Settings)
    (ns1 ns2 : Option String) (s : UpsertState)
    (h : s.vector_store = none) :
    (get_vector_store st ns2 (get_vector_store st ns1 s).2).1 =
      (get_vector_store st ns1 s).1 ∧
    (get_vector_store st ns1 s).1.«namespace» = ns1 ∧
    (get_vector_store st ns2 (get_vector_store st ns1 s).2).2 =
      (get_vector_store st ns1 s).2 ∧
    ∀ (query : String) (k : Int),
      (_vector_search env st query k ns2 (get_vector_store st ns1 s).2).1 =
        ((env.search ns1 query k).filter
          (fun p => st.retriever_threshold ≤ p.2)).map (fun p => p.1) := by
  have key : (get_vector_store st ns1 s).2.vector_store =
      some (get_vector_store st ns1 s).1 ∧
      (get_vector_store st ns1 s).1.«namespace» = ns1 := by
    unfold get_vector_store
    rw [h]
    cases hm : _get_embedding_model st s with
    | mk model s1 =>
      cases hi : _get_pinecone_index st s1 with
      | mk index s2 => exact ⟨rfl, rfl⟩
  cases hrs : get_vector_store st ns1 s with
  | mk vs1 s1 =>
    rw [hrs] at key
    have key1 : s1.vector_store = some vs1 := key.1
    have key2 : vs1.«namespace» = ns1 := key.2
    have h2 : get_vector_store st ns2 s1 = (vs1, s1) := by
      unfold get_vector_store
      rw [key1]
    refine ⟨by rw [h2], key2, by rw [h2], ?_⟩
    intro query k
    unfold _vector_search
    rw [h2]
    dsimp only
    rw [key2]

/-- C9 witness: on a fresh state, a first call for namespace "a" followed
by a call for namespace "b" returns the namespace-"a" store, and the
vector search requested for "b" runs against "a". -/
theorem get_vector_store_first_namespace_wins_witness :
    initState.vector_store = none ∧
    (get_vector_store settings (some "b")
        (get_vector_store settings (some "a") initState).2).1 =
      (get_vector_store settings (some "a") initState).1 ∧
    (get_vector_store settings (some "a") initState).1.«namespace» =
      some "a" ∧
    (_vector_search exEnv settings "q" 5 (some "b")
        (get_vector_store settings (some "a") initState).2).1 =
      ((exEnv.search (some "a") "q" 5).filter
        (fun p => settings.retriever_threshold ≤ p.2)).map (fun p => p.1) := by
  have h := get_vector_store_first_namespace_wins exEnv settings (some "a")
    (some "b") initState (by decide)
  exact ⟨by decide, h.1, h.2.1, h.2.2.2 "q" 5⟩

/-- C10: `rerank` mutates its input in place: each retained candidate's
document — the very object at its original position in the caller's list —
gains the `"rerank_score"` metadata key, and the returned documents are
those same objects; candidates dropped by truncation or threshold keep
their position's document unchanged. -/
theorem rerank_mutates_retained_in_place (f : String → String → ℚ)
    (st : Settings) (query : String) (documents : List Document)
    (k : Option Int) (hne : documents ≠ []) (hq : isBlank query = false) :
    (rerank f st query documents k).result =
      Except.ok ((rerankChosen f st query documents k).map (fun c => c.2.1)) ∧
    (rerank f st query documents k).docsAfter.length = documents.length ∧
    (∀ c ∈ rerankChosen f st query documents k,
      (rerank f st query documents k).docsAfter.get? c.1 = some c.2.1 ∧
      ∃ d, documents.get? c.1 = some d ∧
        c.2.2 = f query d.page_content ∧
        c.2.1 = updateDoc d c.2.2 ∧
        c.2.1.metadata =
          dictSet d.metadata "rerank_score" (MetaVal.num (round4 c.2.2))) ∧
    ∀ i, (∀ c ∈ rerankChosen f st query documents k, c.1 ≠ i) →
      (rerank f st query documents k).docsAfter.get? i = documents.get? i := by
  rw [rerank_eq_of_valid f st query documents k hne hq]
  refine ⟨rfl, rerankAfter_length f st query documents k, ?_, ?_⟩
  · intro c hc
    refine ⟨rerankAfter_get?_chosen f st query documents k hc, ?_⟩
    obtain ⟨p, hp, _hth, rfl⟩ := rerankChosen_mem f st query documents k hc
    obtain ⟨hget, hscore⟩ := rerankRanked_mem f query documents hp
    exact ⟨p.2.1, hget, hscore, rfl, rfl⟩
  · intro i hi
    exact rerankAfter_get?_unchosen f st query documents k i hi

/-- C10 witness: the `[A, B, C]` scenario — every candidate is retained at
the default settings, the returned list is the mutated candidates, and the
caller's list is three entries long afterwards. -/
theorem rerank_mutates_retained_in_place_witness :
    ([docA, docB, docC] : List Document) ≠ [] ∧
    isBlank "q" = false ∧
    (rerank exScore settings "q" [docA, docB, docC] none).docsAfter.length =
      3 ∧
    (rerank exScore settings "q" [docA, docB, docC] none).result =
      Except.ok ((rerankChosen exScore settings "q" [docA, docB, docC]
        none).map (fun c => c.2.1)) := by
  have h := rerank_mutates_retained_in_place exScore settings "q"
    [docA, docB, docC] none (by decide) (by decide)
  exact ⟨by decide, by decide, h.2.1, h.1⟩
